import Mathlib

/-!
# Verification of the medilog storage and migration subsystem

Shallow embedding of the medilog custom component (record stores,
medication catalog store, coordinator, service handlers and the one-shot
medication migration) together with proofs about its documented
behaviour.

Modelling conventions:
* Python dict-backed records are modelled as Lean structures.  The
  optional legacy free-text field `medication` is `Option String`, where
  `none` means "key absent from the dict" (a present-but-`None`/empty
  legacy value behaves identically to `""` in every code path that
  inspects it, so both are collapsed to `some ""`).
* Numeric values (`temperature`, `medication_amount`) are opaque to every
  code path modelled here (they are only stored and copied, never
  computed with), so they are embedded as `Option Int` / `Int`.
* `uuid.uuid4().hex` is modelled by passing a caller-supplied fresh
  identifier (or, in the migration routine, a deterministic counter-based
  supply `genId`); freshness is a hypothesis where a claim needs it.
* Raising `ValueError` is modelled with explicit error results; every
  operation also returns the resulting in-memory state (on the Python
  error paths the state is observationally unchanged, which the
  definitions reproduce) and a flag recording whether `async_save` ran
  (i.e. whether anything was persisted to disk).
-/

/-- Python truthiness of a string: only `""` is falsy. -/
def pyTruthyStr (s : String) : Bool := s ≠ ""

/-- Python truthiness of an optional string (`None` and `""` are falsy). -/
def pyTruthyStrOpt : Option String → Bool
  | none => false
  | some s => pyTruthyStr s

/-- One observation record, as stored in the record store of a person
(`storage.py`).  `medication` is the pre-migration legacy free-text
field; `none` means the key is absent. -/
structure MedRecord where
  id : String
  datetime : String
  temperature : Option Int
  medication_id : Option String
  medication_amount : Int
  note : Option String
  medication : Option String
deriving DecidableEq

/-- In-memory state of one `MedilogStorage` instance:
`self.data = {"entity": entity, "records": records}`. -/
structure MedilogStorageState where
  entity : String
  records : List MedRecord
deriving DecidableEq

/-- The single error `MedilogStorage.async_delete_record` can raise
(`ValueError: Record with the specified id not found.`). -/
inductive RecError where
  | notFound
deriving DecidableEq

/-- Result of a record-store operation: optional error, resulting
in-memory state, and whether `async_save` was invoked. -/
structure RecOpResult where
  res : Option RecError
  state : MedilogStorageState
  saved : Bool
deriving DecidableEq

/-- Field overwrite performed by `async_add_or_update_record` on a
matched record (all fields except `id` are assigned; the legacy
`medication` key, if still present, is not touched by this method). -/
def applyRecordUpdate (record_datetime : String) (temperature : Option Int)
    (medication_id : Option String) (medication_amount : Int)
    (note : Option String) (r : MedRecord) : MedRecord :=
  { r with
    datetime := record_datetime
    temperature := temperature
    medication_id := medication_id
    medication_amount := medication_amount
    note := note }

/-- The update loop of `async_add_or_update_record`: find the first
record with `record.get("id") == id`, apply `upd` to it, and stop.
Returns `none` when no record matched (including when `id` is `None`). -/
def updateFirstRecord (id : Option String) (upd : MedRecord → MedRecord) :
    List MedRecord → Option (List MedRecord)
  | [] => none
  | r :: rs =>
    if some r.id == id then some (upd r :: rs)
    else
      match updateFirstRecord id upd rs with
      | some rs' => some (r :: rs')
      | none => none

/-- `MedilogStorage.async_add_or_update_record`.  `freshId` stands for
the `uuid.uuid4().hex` generated for a new record.  Always saves. -/
def async_add_or_update_record (s : MedilogStorageState) (freshId : String)
    (id : Option String) (record_datetime : String) (temperature : Option Int)
    (medication_id : Option String) (medication_amount : Int)
    (note : Option String) : MedilogStorageState × Bool :=
  match updateFirstRecord id
      (applyRecordUpdate record_datetime temperature medication_id
        medication_amount note) s.records with
  | some recs => (⟨s.entity, recs⟩, true)
  | none =>
    let newRecord : MedRecord :=
      ⟨freshId, record_datetime, temperature, medication_id,
        medication_amount, note, none⟩
    (⟨s.entity, newRecord :: s.records⟩, true)

/-- `MedilogStorage.async_delete_record`: filter out the matching
records; raise `ValueError` (without saving) when the length did not
change, otherwise save.  (On the error path Python has reassigned
`self.data["records"]` to the filtered list, which is element-wise equal
to the original.) -/
def async_delete_record (s : MedilogStorageState) (record_id : String) :
    RecOpResult :=
  let filtered := s.records.filter fun r => r.id ≠ record_id
  if filtered.length == s.records.length then
    ⟨some RecError.notFound, ⟨s.entity, filtered⟩, false⟩
  else
    ⟨none, ⟨s.entity, filtered⟩, true⟩

/-- One medication catalog entry (`medication_storage.py`). -/
structure Medication where
  id : String
  name : String
  units : Option String
  is_antipyretic : Bool
  active_ingredient : Option String
deriving DecidableEq

/-- The `ValueError`s raised by `MedicationStorage`. -/
inductive MedError where
  | duplicateName (name : String)
  | notFoundMed (id : String)
  | inUse (id : String)
deriving DecidableEq

/-- Result of a medication-catalog operation: value or error, resulting
catalog (`self.data["medications"]`), and whether `async_save` ran. -/
structure MedOpRes (α : Type) where
  res : Except MedError α
  meds : List Medication
  saved : Bool

/-- `MedicationStorage.get_medication`: first entry with the given id. -/
def get_medication (meds : List Medication) (medication_id : String) :
    Option Medication :=
  meds.find? fun m => m.id == medication_id

/-- `MedicationStorage.medication_exists`. -/
def medication_exists (meds : List Medication) (medication_id : String) : Bool :=
  (get_medication meds medication_id).isSome

/-- `MedicationStorage.is_medication_name_unique`: no entry other than
`exclude_id` carries this exact name.  (`medication.get("id") !=
exclude_id` compares a string id against `exclude_id`, which may be
`None`.) -/
def is_medication_name_unique (meds : List Medication) (name : String)
    (exclude_id : Option String) : Bool :=
  meds.all fun m => !(m.name == name && !(some m.id == exclude_id))

/-- The update loop of `async_add_or_update_medication`: overwrite all
fields but `id` of the first entry whose id matches, returning the new
catalog and the updated entry. -/
def updateFirstMed (i : String) (name : String) (units : Option String)
    (is_antipyretic : Bool) (active_ingredient : Option String) :
    List Medication → Option (List Medication × Medication)
  | [] => none
  | m :: ms =>
    if m.id == i then
      let m' : Medication := ⟨m.id, name, units, is_antipyretic, active_ingredient⟩
      some (m' :: ms, m')
    else
      match updateFirstMed i name units is_antipyretic active_ingredient ms with
      | some (ms', r) => some (m :: ms', r)
      | none => none

/-- `MedicationStorage.async_add_or_update_medication`.  The duplicate
name check runs first; then `if id:` (Python truthiness, so `None` and
`""` both take the create branch); the create branch appends an entry
with a fresh uuid (`freshId`).  Saves only on success. -/
def async_add_or_update_medication (meds : List Medication) (freshId : String)
    (id : Option String) (name : String) (units : Option String)
    (is_antipyretic : Bool) (active_ingredient : Option String) :
    MedOpRes Medication :=
  if !(is_medication_name_unique meds name id) then
    ⟨.error (.duplicateName name), meds, false⟩
  else if pyTruthyStrOpt id then
    match updateFirstMed (id.getD "") name units is_antipyretic
        active_ingredient meds with
    | some (meds', m) => ⟨.ok m, meds', true⟩
    | none => ⟨.error (.notFoundMed (id.getD "")), meds, false⟩
  else
    let newMed : Medication := ⟨freshId, name, units, is_antipyretic, active_ingredient⟩
    ⟨.ok newMed, meds ++ [newMed], true⟩

/-- `MedicationStorage.async_delete_medication`: the usage callback is
consulted first (`if check_usage_callback and check_usage_callback(id)`),
raising "in use" before any mutation; then the list is filtered and
"not found" is raised when nothing was removed (the filtered list being
element-wise equal to the original in that case). -/
def async_delete_medication (meds : List Medication) (medication_id : String)
    (check_usage_callback : Option (String → Bool)) : MedOpRes Unit :=
  let inUse :=
    match check_usage_callback with
    | some f => f medication_id
    | none => false
  if inUse then
    ⟨.error (.inUse medication_id), meds, false⟩
  else
    let filtered := meds.filter fun m => m.id ≠ medication_id
    if filtered.length == meds.length then
      ⟨.error (.notFoundMed medication_id), filtered, false⟩
    else
      ⟨.ok (), filtered, true⟩

/-- `MedicationStorage.async_create_medication_from_name` (used only by
the migration): find-or-create by exact name, returning the entry id. -/
def async_create_medication_from_name (meds : List Medication)
    (freshId : String) (name : String) : MedOpRes String :=
  match meds.find? (fun m => m.name == name) with
  | some m => ⟨.ok m.id, meds, false⟩
  | none =>
    let r := async_add_or_update_medication meds freshId none name none false none
    match r.res with
    | .ok m => ⟨.ok m.id, r.meds, r.saved⟩
    | .error e => ⟨.error e, r.meds, r.saved⟩

/-- `MedilogCoordinator.is_medication_in_use`: some record of some person
storage references the id (`record.get("medication_id") ==
medication_id`; a record whose `medication_id` is `None`/absent never
matches a string id). -/
def is_medication_in_use (storages : List MedilogStorageState)
    (medication_id : String) : Bool :=
  storages.any fun s => s.records.any fun r => r.medication_id == some medication_id

/-- One element of the result of `MedilogCoordinator.get_person_list`. -/
structure PersonEntry where
  entity : String
  recent_record : Option MedRecord
deriving DecidableEq

/-- The Python call `max(records, key=lambda x: x.get("datetime", 0),
default=None)` on records that all carry a string `datetime`: keep the
first element whose key is maximal (`max` replaces the running maximum
only on a strictly greater key). -/
def maxStep (acc x : MedRecord) : MedRecord :=
  if acc.datetime < x.datetime then x else acc

/-- See `maxStep`: the running maximum of the Python `max` builtin. -/
def pythonMaxRecord : List MedRecord → Option MedRecord
  | [] => none
  | r :: rs => some (rs.foldl maxStep r)

/-- `MedilogCoordinator.get_person_list`: one entry per person storage,
holding the entity of the storage and its most recent record.  (`self.data`
is always a two-key dict here, so the `if storage.data and
len(storage.data) > 0` guard is constantly true; `max(..., default=None)`
together with the `if records` guard reduces to `pythonMaxRecord`.) -/
def get_person_list (storages : List (String × MedilogStorageState)) :
    List PersonEntry :=
  storages.map fun p => ⟨p.1, pythonMaxRecord p.2.records⟩

/-- Coordinator state as seen by the service layer: the medication
catalog (`None` until `async_setup` ran) and the person storages keyed by
entity id. -/
structure CoordinatorState where
  medication_storage : Option (List Medication)
  person_storages : List (String × MedilogStorageState)
deriving DecidableEq

/-- `MedilogCoordinator.get_storage`. -/
def getStorage (ps : List (String × MedilogStorageState)) (person_id : String) :
    Option MedilogStorageState :=
  (ps.find? fun p => p.1 == person_id).map fun p => p.2

/-- Write back a person storage after a mutation (the Python dict entry
is mutated in place). -/
def setStorage (ps : List (String × MedilogStorageState)) (person_id : String)
    (s : MedilogStorageState) : List (String × MedilogStorageState) :=
  ps.map fun p => if p.1 == person_id then (p.1, s) else p

/-- Result of a service handler: resulting coordinator state and whether
any storage save happened. -/
structure ServiceRes where
  coord : CoordinatorState
  saved : Bool
deriving DecidableEq

/-- `services.py` `handle_add_or_update`: validate `medication_id` if
truthy (`if medication_id:`) against the catalog, then delegate to the
person storage method `async_add_or_update_record`.  All rejection paths log
and return without mutating anything. -/
def handle_add_or_update (c : CoordinatorState) (freshId : String)
    (person_id : String) (record_id : Option String)
    (record_datetime : String) (temperature : Option Int)
    (medication_id : Option String) (medication_amount : Int)
    (note : Option String) : ServiceRes :=
  let proceed : ServiceRes :=
    match getStorage c.person_storages person_id with
    | none => ⟨c, false⟩
    | some s =>
      let r := async_add_or_update_record s freshId record_id record_datetime
        temperature medication_id medication_amount note
      ⟨⟨c.medication_storage, setStorage c.person_storages person_id r.1⟩, r.2⟩
  if pyTruthyStrOpt medication_id then
    match c.medication_storage with
    | none => ⟨c, false⟩
    | some meds =>
      if medication_exists meds (medication_id.getD "") then proceed
      else ⟨c, false⟩
  else proceed

/-- A parsed JSON value as Python sees it (`json.load` result). -/
inductive PyValue where
  | pyNull
  | pyBool (b : Bool)
  | pyInt (n : Int)
  | pyStr (s : String)
  | pyList (xs : List PyValue)
  | pyDict (kvs : List (String × PyValue))

/-- Python `dict.get` on a parsed JSON object. -/
def pyDictGet (kvs : List (String × PyValue)) (k : String) : Option PyValue :=
  (kvs.find? fun kv => kv.1 == k).map fun kv => kv.2

/-- Content of the backing file as `async_load` encounters it: missing,
present but not valid JSON (`json.JSONDecodeError`), or parsed. -/
inductive FileContent where
  | absent
  | unparsable
  | parsed (v : PyValue)

/-- The empty record-store document `{"entity": entity, "records": []}`. -/
def emptyRecordDoc (entity : String) : PyValue :=
  .pyDict [("entity", .pyStr entity), ("records", .pyList [])]

/-- A `MedilogStorage` with its raw (dict-shaped) `self.data`, used to
model `async_load` faithfully at the JSON level. -/
structure RawMedilogStorage where
  entity : String
  data : PyValue

/-- `MedilogStorage.__init__`: `self.data = {"entity": ..., "records": []}`. -/
def initRawStorage (entity : String) : RawMedilogStorage :=
  ⟨entity, emptyRecordDoc entity⟩

/-- Python exceptions that `async_load` can let escape.  The `except`
clause catches only `json.JSONDecodeError` and `FileNotFoundError`; an
`AttributeError` from calling `.get` on a non-dict value is not caught. -/
inductive PyError where
  | attributeError
deriving DecidableEq

/-- `MedilogStorage.async_load`: reset to the empty document when the
file is absent or unparsable; adopt the parsed value when
`loaded_data.get("entity") == self.entity`; keep the current data on an
entity mismatch; raise `AttributeError` when the parsed value is not a
dict (no `isinstance` guard exists in this class, unlike
`MedicationStorage.async_load`). -/
def rawAsyncLoad (s : RawMedilogStorage) (file : FileContent) :
    Except PyError RawMedilogStorage :=
  match file with
  | .absent => .ok ⟨s.entity, emptyRecordDoc s.entity⟩
  | .unparsable => .ok ⟨s.entity, emptyRecordDoc s.entity⟩
  | .parsed v =>
    match v with
    | .pyDict kvs =>
      match pyDictGet kvs "entity" with
      | some (.pyStr e) => if e == s.entity then .ok ⟨s.entity, v⟩ else .ok s
      | _ => .ok s
    | _ => .error .attributeError

/-- A catalog operation, for stating the catalog invariant. -/
inductive CatalogOp where
  | addOrUpdate (freshId : String) (id : Option String) (name : String)
      (units : Option String) (is_antipyretic : Bool)
      (active_ingredient : Option String)
  | createFromName (freshId : String) (name : String)
  | deleteMed (id : String) (inUse : String → Bool)

/-- The catalog resulting from one operation (error paths leave the
catalog observationally unchanged, as in the Python code). -/
def applyCatalogOp (meds : List Medication) : CatalogOp → List Medication
  | .addOrUpdate f i nm u a ai =>
      (async_add_or_update_medication meds f i nm u a ai).meds
  | .createFromName f nm => (async_create_medication_from_name meds f nm).meds
  | .deleteMed i p => (async_delete_medication meds i (some p)).meds

/-- The fresh id an operation may consume is really fresh: it is not the
id of any existing entry and is non-empty (as `uuid.uuid4().hex` is). -/
def catalogOpFreshOk (meds : List Medication) : CatalogOp → Bool
  | .addOrUpdate f _ _ _ _ _ =>
      !((meds.map fun m => m.id).contains f) && !(f == "")
  | .createFromName f _ =>
      !((meds.map fun m => m.id).contains f) && !(f == "")
  | .deleteMed _ _ => true

/-- Deterministic stand-in for the `uuid.uuid4().hex` supply consumed by
the migration routine (one per processed legacy name). -/
def genId (n : Nat) : String := "uuid-" ++ toString n

/-- One step of collecting legacy names:
`if record.get("medication"): medication_names.add(record["medication"])`.
The Python `set` is modelled as a duplicate-free list in first-insertion
order (set iteration order is irrelevant to every property proved here). -/
def addLegacyName (acc : List String) (r : MedRecord) : List String :=
  match r.medication with
  | some nm => if pyTruthyStr nm && !(acc.contains nm) then acc ++ [nm] else acc
  | none => acc

/-- The scan of the migration of every person storage for distinct truthy
legacy `medication` values. -/
def collectLegacyNames (storages : List MedilogStorageState) : List String :=
  storages.foldl (fun acc s => s.records.foldl addLegacyName acc) []

/-- Does some record of some storage carry the non-empty legacy value
`nm`? -/
def hasLegacyName (storages : List MedilogStorageState) (nm : String) : Bool :=
  pyTruthyStr nm && storages.any fun s => s.records.any fun r => r.medication == some nm

/-- Output of the name-processing loop of the migration: the
`old_name -> new_id` mapping, the catalog after all
`async_create_medication_from_name` calls, the next unused fresh-id
index, and how many catalog saves happened. -/
structure BuildResult where
  medMap : List (String × String)
  meds : List Medication
  nextId : Nat
  saves : Nat

/-- The `for name in medication_names:` loop of the migration, calling
`async_create_medication_from_name` for each collected name.  An
exception from the catalog store would propagate (it provably cannot
occur: see `buildMedMap_eq`). -/
def buildMedMap : List Medication → Nat → List String → Except MedError BuildResult
  | meds, n, [] => .ok ⟨[], meds, n, 0⟩
  | meds, n, name :: rest =>
    let r := async_create_medication_from_name meds (genId n) name
    match r.res with
    | .error e => .error e
    | .ok i =>
      match buildMedMap r.meds (n + 1) rest with
      | .error e => .error e
      | .ok b =>
        .ok ⟨(name, i) :: b.medMap, b.meds, b.nextId,
          (if r.saved then 1 else 0) + b.saves⟩

/-- Exception-free unfolding of `buildMedMap` (the find-or-create calls
never raise); proved equal to it in `buildMedMap_eq`. -/
def buildMedMapT : List Medication → Nat → List String → BuildResult
  | meds, n, [] => ⟨[], meds, n, 0⟩
  | meds, n, name :: rest =>
    match meds.find? (fun m => m.name == name) with
    | some m =>
      let b := buildMedMapT meds (n + 1) rest
      ⟨(name, m.id) :: b.medMap, b.meds, b.nextId, b.saves⟩
    | none =>
      let b := buildMedMapT (meds ++ [⟨genId n, name, none, false, none⟩])
        (n + 1) rest
      ⟨(name, genId n) :: b.medMap, b.meds, b.nextId, 1 + b.saves⟩

/-- The per-record rewrite of the migration: when the legacy key is present,
set `medication_id` to the mapped id if the legacy value is truthy and
in the map, else to `None`, and delete the legacy key; records without
the legacy key are untouched. -/
def migrateRecord (medMap : List (String × String)) (r : MedRecord) : MedRecord :=
  match r.medication with
  | none => r
  | some old =>
    { r with
      medication := none
      medication_id :=
        if pyTruthyStr old && (List.lookup old medMap).isSome then
          List.lookup old medMap
        else none }

/-- The per-storage pass of the migration: rewrite every record and report
whether the storage needs a save (some record carried the legacy key). -/
def migrateStorage (medMap : List (String × String)) (s : MedilogStorageState) :
    MedilogStorageState × Bool :=
  (⟨s.entity, s.records.map (migrateRecord medMap)⟩,
    s.records.any fun r => r.medication.isSome)

/-- A durable write performed by the migration. -/
inductive WriteEvent where
  | catalogSave
  | storeSave (entity : String)
  | markerTouch
deriving DecidableEq

/-- The state `_async_migrate_medications` operates on: the
`.migration_complete` marker file, the catalog store (`None` when not
initialized), the person storages, and the fresh-id supply index. -/
structure MigrationWorld where
  markerPresent : Bool
  medication_storage : Option (List Medication)
  person_storages : List MedilogStorageState
  nextId : Nat
deriving DecidableEq

/-- Result of running the migration: final state plus the durable writes
it performed, in order. -/
structure MigrationResult where
  world : MigrationWorld
  writes : List WriteEvent
deriving DecidableEq

/-- `MedilogCoordinator._async_migrate_medications`: return immediately
when the marker exists; abort (without marker) when the catalog store is
not initialized; otherwise collect legacy names, find-or-create catalog
entries, rewrite and save each affected storage, and finally touch the
marker.  The `.error` branch of `buildMedMap` is unreachable
(`buildMedMap_eq`); it is rendered as the exception aborting the routine
before any further write. -/
def medilogMigrate (w : MigrationWorld) : MigrationResult :=
  if w.markerPresent then ⟨w, []⟩
  else
    match w.medication_storage with
    | none => ⟨w, []⟩
    | some meds =>
      match buildMedMap meds w.nextId (collectLegacyNames w.person_storages) with
      | .error _ => ⟨w, []⟩
      | .ok b =>
        let migrated := w.person_storages.map (migrateStorage b.medMap)
        ⟨⟨true, some b.meds, migrated.map fun p => p.1, b.nextId⟩,
          (List.replicate b.saves .catalogSave) ++
            ((migrated.filter fun p => p.2).map fun p =>
              WriteEvent.storeSave p.1.entity) ++ [.markerTouch]⟩

/-! ## Record store lemmas and claims C5, C8 -/

theorem updateFirstRecord_eq_none (id : Option String) (upd : MedRecord → MedRecord) :
    ∀ l : List MedRecord, (∀ r ∈ l, some r.id ≠ id) →
      updateFirstRecord id upd l = none
  | [], _ => rfl
  | r :: rs, h => by
    have hr : (some r.id == id) = false :=
      beq_eq_false_iff_ne.mpr (h r (List.mem_cons_self r rs))
    have ih := updateFirstRecord_eq_none id upd rs
      fun x hx => h x (List.mem_cons_of_mem _ hx)
    simp [updateFirstRecord, hr, ih]

theorem updateFirstRecord_middle (i : String) (upd : MedRecord → MedRecord) :
    ∀ (pre : List MedRecord) (r : MedRecord) (post : List MedRecord),
      (∀ p ∈ pre, p.id ≠ i) → r.id = i →
      updateFirstRecord (some i) upd (pre ++ r :: post) =
        some (pre ++ upd r :: post)
  | [], r, post, _, hr => by simp [updateFirstRecord, hr]
  | p :: pre, r, post, hpre, hr => by
    have hp : (some p.id == some i) = false :=
      beq_eq_false_iff_ne.mpr (by
        simpa using hpre p (List.mem_cons_self p pre))
    have ih := updateFirstRecord_middle i upd pre r post
      (fun x hx => hpre x (List.mem_cons_of_mem _ hx)) hr
    simp [updateFirstRecord, hp, ih]

/-- C5: with all record ids distinct, `addOrUpdate` with a matching `id`
overwrites the datetime, temperature, medication_id, medication_amount
and note of exactly that record in place (same id, same list position,
same record count); with a null or unmatched `id` it inserts a record
carrying the freshly generated id at index 0 (count grows by one, and id
uniqueness is kept when the fresh id is really fresh); in both cases the
store is persisted (`async_save` runs) before the call returns. -/
theorem addOrUpdateRecord_spec (s : MedilogStorageState) (freshId : String)
    (id : Option String) (record_datetime : String) (temperature : Option Int)
    (medication_id : Option String) (medication_amount : Int)
    (note : Option String)
    (hids : (s.records.map fun r => r.id).Nodup) :
    (async_add_or_update_record s freshId id record_datetime temperature
        medication_id medication_amount note).2 = true ∧
    (async_add_or_update_record s freshId id record_datetime temperature
        medication_id medication_amount note).1.entity = s.entity ∧
    (∀ i pre r post, id = some i → s.records = pre ++ r :: post → r.id = i →
      (async_add_or_update_record s freshId id record_datetime temperature
          medication_id medication_amount note).1.records =
        pre ++ applyRecordUpdate record_datetime temperature medication_id
          medication_amount note r :: post) ∧
    ((∀ r ∈ s.records, some r.id ≠ id) →
      (async_add_or_update_record s freshId id record_datetime temperature
          medication_id medication_amount note).1.records =
        ⟨freshId, record_datetime, temperature, medication_id,
          medication_amount, note, none⟩ :: s.records ∧
      (freshId ∉ s.records.map (fun r => r.id) →
        ((async_add_or_update_record s freshId id record_datetime temperature
            medication_id medication_amount note).1.records.map
          fun r => r.id).Nodup)) := by
  refine ⟨?_, ?_, ?_, ?_⟩
  · unfold async_add_or_update_record
    cases updateFirstRecord id (applyRecordUpdate record_datetime temperature
      medication_id medication_amount note) s.records <;> rfl
  · unfold async_add_or_update_record
    cases updateFirstRecord id (applyRecordUpdate record_datetime temperature
      medication_id medication_amount note) s.records <;> rfl
  · intro i pre r post hid hdec hri
    subst hid
    have hpre : ∀ p ∈ pre, p.id ≠ i := by
      intro p hp
      rw [hdec] at hids
      simp only [List.map_append, List.map_cons, List.nodup_append] at hids
      have hdisj := hids.2.2
      have : p.id ∈ pre.map fun r => r.id := List.mem_map_of_mem _ hp
      intro hcontra
      exact hdisj this (by simp [hcontra, hri])
    unfold async_add_or_update_record
    rw [hdec, updateFirstRecord_middle i _ pre r post hpre hri]
  · intro hnone
    have h0 := updateFirstRecord_eq_none id (applyRecordUpdate record_datetime
      temperature medication_id medication_amount note) s.records hnone
    constructor
    · unfold async_add_or_update_record
      rw [h0]
    · intro hfresh
      unfold async_add_or_update_record
      rw [h0]
      simp only [List.map_cons, List.nodup_cons]
      exact ⟨by simpa using hfresh, hids⟩

/-- Concrete store for the C5 witness. -/
def c5store : MedilogStorageState :=
  ⟨"person.a", [⟨"a", "t0", none, none, 1, none, none⟩]⟩

/-- Witness for C5: updating the only record of a concrete store by its
id rewrites it in place. -/
theorem addOrUpdateRecord_spec_witness :
    ((c5store.records.map fun r => r.id).Nodup) ∧
    (async_add_or_update_record c5store "f1" (some "a") "t1" none none 2
        none).1.records =
      [] ++ applyRecordUpdate "t1" none none 2 none
        ⟨"a", "t0", none, none, 1, none, none⟩ :: [] := by
  refine ⟨by decide, ?_⟩
  exact (addOrUpdateRecord_spec c5store "f1" (some "a") "t1" none none 2 none
    (by decide)).2.2.1 "a" [] ⟨"a", "t0", none, none, 1, none, none⟩ []
    rfl rfl rfl

theorem filter_ne_eq_self_of_not_mem (l : List MedRecord) (rid : String)
    (h : rid ∉ l.map fun r => r.id) :
    (l.filter fun r => r.id ≠ rid) = l := by
  apply List.filter_eq_self.mpr
  intro a hal
  have : a.id ≠ rid := by
    intro hc
    exact h (hc ▸ List.mem_map_of_mem _ hal)
  simpa using this

theorem filter_ne_length_of_mem (l : List MedRecord) (rid : String)
    (hnd : (l.map fun r => r.id).Nodup) (hm : rid ∈ l.map fun r => r.id) :
    (l.filter fun r => r.id ≠ rid).length + 1 = l.length := by
  induction l with
  | nil => simp at hm
  | cons a l ih =>
    simp only [List.map_cons, List.nodup_cons] at hnd
    rcases List.mem_cons.mp hm with h1 | h2
    · have hrest : (l.filter fun r => r.id ≠ rid) = l :=
        filter_ne_eq_self_of_not_mem l rid (h1 ▸ hnd.1)
      have ha : ¬ (decide (a.id ≠ rid)) = true := by simp [h1]
      simp only [List.filter_cons]
      rw [if_neg ha, hrest]
      simp
    · have ha : (decide (a.id ≠ rid)) = true := by
        simp
        intro hc
        exact hnd.1 (hc ▸ h2)
      have hih := ih hnd.2 h2
      simp only [List.filter_cons]
      rw [if_pos ha]
      simp only [List.length_cons]
      omega

/-- C8: deleting an id that matches no record raises the not-found
`ValueError`, leaves the record list unchanged, and performs no save;
deleting a matching id (ids being unique) removes exactly that record,
preserving the order of the rest, and persists the store. -/
theorem deleteRecord_spec (s : MedilogStorageState) (record_id : String) :
    (record_id ∉ s.records.map (fun r => r.id) →
      async_delete_record s record_id = ⟨some RecError.notFound, s, false⟩) ∧
    ((s.records.map fun r => r.id).Nodup →
      record_id ∈ s.records.map (fun r => r.id) →
      async_delete_record s record_id =
        ⟨none, ⟨s.entity, s.records.filter fun r => r.id ≠ record_id⟩, true⟩ ∧
      (s.records.filter fun r => r.id ≠ record_id).length + 1 =
        s.records.length) := by
  constructor
  · intro h
    have hf := filter_ne_eq_self_of_not_mem s.records record_id h
    unfold async_delete_record
    simp only [hf, beq_self_eq_true, if_true]
  · intro hnd hm
    have hlen := filter_ne_length_of_mem s.records record_id hnd hm
    refine ⟨?_, hlen⟩
    unfold async_delete_record
    have : ((s.records.filter fun r => r.id ≠ record_id).length ==
        s.records.length) = false := by
      apply beq_eq_false_iff_ne.mpr
      omega
    simp only [this]
    rfl

/-- Witness for C8: deleting a missing id from a concrete one-record
store fails with not-found, unchanged and unsaved; deleting the present
id removes it and saves. -/
theorem deleteRecord_spec_witness :
    ("zzz" ∉ c5store.records.map (fun r => r.id)) ∧
    async_delete_record c5store "zzz" =
      ⟨some RecError.notFound, c5store, false⟩ ∧
    async_delete_record c5store "a" = ⟨none, ⟨"person.a", []⟩, true⟩ := by
  have h1 := (deleteRecord_spec c5store "zzz").1 (by decide)
  have h2 := ((deleteRecord_spec c5store "a").2 (by decide) (by decide)).1
  exact ⟨by decide, h1, h2⟩

/-! ## Medication catalog lemmas and claims C3, C6, C10 -/

theorem name_unique_iff (meds : List Medication) (name : String)
    (ex : Option String) :
    is_medication_name_unique meds name ex = true ↔
      ∀ m ∈ meds, m.name = name → some m.id = ex := by
  unfold is_medication_name_unique
  rw [List.all_eq_true]
  constructor
  · intro h m hm hname
    have hb := h m hm
    simp only [hname, beq_self_eq_true, Bool.true_and, Bool.not_not] at hb
    exact beq_iff_eq.mp hb
  · intro h m hm
    by_cases hname : m.name = name
    · have := h m hm hname
      simp [this]
    · simp [hname]

theorem updateFirstMed_some (i : String) (nm : String) (u : Option String)
    (a : Bool) (ai : Option String) :
    ∀ (l l' : List Medication) (mr : Medication),
      updateFirstMed i nm u a ai l = some (l', mr) →
      ∃ pre mold post, l = pre ++ mold :: post ∧ (∀ p ∈ pre, p.id ≠ i) ∧
        mold.id = i ∧ mr = ⟨mold.id, nm, u, a, ai⟩ ∧ l' = pre ++ mr :: post
  | [], l', mr, h => by simp [updateFirstMed] at h
  | m :: ms, l', mr, h => by
    by_cases hm : m.id = i
    · refine ⟨[], m, ms, by simp, by simp, hm, ?_, ?_⟩
      · rw [updateFirstMed] at h
        rw [if_pos (beq_iff_eq.mpr hm)] at h
        exact (Prod.mk.injEq _ _ _ _ ▸ Option.some.injEq _ _ ▸ h :
          _ ∧ _).2.symm
      · rw [updateFirstMed] at h
        rw [if_pos (beq_iff_eq.mpr hm)] at h
        have h2 := (Option.some.injEq _ _ ▸ h : _ = (_, _))
        have h3 := congrArg Prod.fst h2
        have h4 := congrArg Prod.snd h2
        simp at h2 h3 h4
        simp [← h2.1, h2.2]
    · rw [updateFirstMed] at h
      rw [if_neg (by simpa using hm)] at h
      cases hrec : updateFirstMed i nm u a ai ms with
      | none => rw [hrec] at h; exact absurd h (by simp)
      | some p =>
        rw [hrec] at h
        obtain ⟨ms', r⟩ := p
        simp only [Option.some.injEq, Prod.mk.injEq] at h
        obtain ⟨pre, mold, post, hdec, hpre, hid, hmr, hl'⟩ :=
          updateFirstMed_some i nm u a ai ms ms' r hrec
        refine ⟨m :: pre, mold, post, by simp [hdec], ?_, hid,
          h.2 ▸ hmr, ?_⟩
        · intro p hp
          rcases List.mem_cons.mp hp with h1 | h2
          · exact h1 ▸ hm
          · exact hpre p h2
        · rw [← h.1, hl', h.2]
          simp

theorem find?_name_none (meds : List Medication) (nm : String)
    (h : meds.find? (fun m => m.name == nm) = none) :
    ∀ m ∈ meds, m.name ≠ nm := by
  intro m hm
  have := List.find?_eq_none.mp h m hm
  simpa using this

theorem create_branch_invariants (meds : List Medication) (f nm : String)
    (u : Option String) (a : Bool) (ai : Option String)
    (hnames : (meds.map fun m => m.name).Nodup)
    (hids : (meds.map fun m => m.id).Nodup)
    (hne : "" ∉ meds.map fun m => m.id)
    (hf1 : f ∉ meds.map fun m => m.id) (hf2 : f ≠ "")
    (hnm : ∀ m ∈ meds, m.name ≠ nm) :
    (((meds ++ [(⟨f, nm, u, a, ai⟩ : Medication)]).map fun m => m.name).Nodup) ∧
    (((meds ++ [(⟨f, nm, u, a, ai⟩ : Medication)]).map fun m => m.id).Nodup) ∧
    "" ∉ (meds ++ [(⟨f, nm, u, a, ai⟩ : Medication)]).map fun m => m.id := by
  refine ⟨?_, ?_, ?_⟩
  · rw [List.map_append, List.nodup_append]
    refine ⟨hnames, by simp, ?_⟩
    intro x hx
    simp only [List.map_cons, List.map_nil, List.mem_singleton]
    obtain ⟨m, hm, rfl⟩ := List.mem_map.mp hx
    simpa using hnm m hm
  · rw [List.map_append, List.nodup_append]
    refine ⟨hids, by simp, ?_⟩
    intro x hx
    simp only [List.map_cons, List.map_nil, List.mem_singleton]
    intro hcontra
    exact hf1 (hcontra ▸ hx)
  · rw [List.map_append]
    intro hmem
    rcases List.mem_append.mp hmem with h1 | h2
    · exact hne h1
    · simp at h2
      exact hf2 h2.symm

theorem update_branch_names (pre post : List Medication) (mold : Medication)
    (nm : String) (u : Option String) (a : Bool) (ai : Option String)
    (hnames : ((pre ++ mold :: post).map fun m => m.name).Nodup)
    (hother : ∀ m ∈ pre ++ post, m.name ≠ nm) :
    ((pre ++ (⟨mold.id, nm, u, a, ai⟩ : Medication) :: post).map
      fun m => m.name).Nodup := by
  rw [List.map_append, List.map_cons] at hnames ⊢
  rw [List.nodup_middle] at hnames ⊢
  rw [List.nodup_cons] at hnames ⊢
  refine ⟨?_, hnames.2⟩
  intro hmem
  rw [← List.map_append] at hmem
  obtain ⟨m, hm, hmn⟩ := List.mem_map.mp hmem
  exact hother m hm hmn

/-- Concrete duplicate-id catalog for refuting C3 as stated. -/
def c3meds : List Medication :=
  [⟨"x", "A", none, false, none⟩, ⟨"x", "B", none, false, none⟩]

/-- C3 is false as stated: from a catalog whose entry names are all
distinct (but whose ids collide), a single successful `addOrUpdate` call
produces two surviving entries with the same name — the duplicate-name
check excludes every entry carrying the target id, while the update loop
rewrites only the first of them. -/
theorem catalog_uniqueness_counterexample :
    ((c3meds.map fun m => m.name).Nodup) ∧
    ¬ ((((async_add_or_update_medication c3meds "fresh" (some "x") "B" none
        false none).meds).map fun m => m.name).Nodup) := by decide

/-- C3 (amended): starting from a catalog in which all entry names are
distinct and all entry ids are distinct and non-empty, every catalog
operation (`addOrUpdate`, `createFromName`, `delete`) — whether it
succeeds or fails — preserves all three properties, provided any freshly
generated id is new and non-empty (as `uuid.uuid4().hex` is). -/
theorem catalogOp_preserves_uniqueness (meds : List Medication)
    (op : CatalogOp)
    (hnames : (meds.map fun m => m.name).Nodup)
    (hids : (meds.map fun m => m.id).Nodup)
    (hne : "" ∉ meds.map fun m => m.id)
    (hfresh : catalogOpFreshOk meds op = true) :
    ((applyCatalogOp meds op).map fun m => m.name).Nodup ∧
    ((applyCatalogOp meds op).map fun m => m.id).Nodup ∧
    "" ∉ (applyCatalogOp meds op).map fun m => m.id := by
  cases op with
  | addOrUpdate f i nm u a ai =>
    simp only [catalogOpFreshOk, Bool.and_eq_true, Bool.not_eq_true'] at hfresh
    have hf1 : f ∉ meds.map fun m => m.id := by
      simpa using hfresh.1
    have hf2 : f ≠ "" := by
      simpa using hfresh.2
    by_cases hu : is_medication_name_unique meds nm i = true
    · cases hti : pyTruthyStrOpt i with
      | false =>
        have hnm : ∀ m ∈ meds, m.name ≠ nm := by
          intro m hm hcontra
          have hmid := (name_unique_iff meds nm i).mp hu m hm hcontra
          cases i with
          | none => simp at hmid
          | some s =>
            have hs : s = "" := by
              simpa [pyTruthyStrOpt, pyTruthyStr] using hti
            rw [hs] at hmid
            have : m.id = "" := by simpa using hmid
            exact hne (this ▸ List.mem_map_of_mem _ hm)
        simp only [applyCatalogOp, async_add_or_update_medication, hu,
          Bool.not_true, Bool.false_eq_true, if_false, hti]
        exact create_branch_invariants meds f nm u a ai hnames hids hne
          hf1 hf2 hnm
      | true =>
        obtain ⟨s, rfl⟩ : ∃ s, i = some s := by
          cases i with
          | none => simp [pyTruthyStrOpt] at hti
          | some s => exact ⟨s, rfl⟩
        cases hupd : updateFirstMed s nm u a ai meds with
        | none =>
          simp only [applyCatalogOp, async_add_or_update_medication, hu,
            Bool.not_true, Bool.false_eq_true, if_false, hti, if_true,
            Option.getD_some, hupd]
          exact ⟨hnames, hids, hne⟩
        | some p =>
          obtain ⟨meds', mr⟩ := p
          obtain ⟨pre, mold, post, hdec, hpre, hid, hmr, hl'⟩ :=
            updateFirstMed_some s nm u a ai meds meds' mr hupd
          have hids2 : meds'.map (fun m => m.id) = meds.map fun m => m.id := by
            rw [hl', hdec, hmr]
            simp
          have hother : ∀ m ∈ pre ++ post, m.name ≠ nm := by
            intro m hm hcontra
            have hmid := (name_unique_iff meds nm (some s)).mp hu m
              (by
                rw [hdec]
                rcases List.mem_append.mp hm with h1 | h2
                · exact List.mem_append.mpr (Or.inl h1)
                · exact List.mem_append.mpr (Or.inr (List.mem_cons_of_mem _ h2)))
              hcontra
            have hmids : m.id = mold.id := by
              rw [hid]
              simpa using hmid
            have hmm : mold.id ∉ (pre ++ post).map fun m => m.id := by
              have := hids
              rw [hdec, List.map_append, List.map_cons, List.nodup_middle,
                List.nodup_cons, ← List.map_append] at this
              exact this.1
            exact hmm (hmids ▸ List.mem_map_of_mem _ hm)
          have hnames2 : (meds'.map fun m => m.name).Nodup := by
            rw [hl', hmr]
            exact update_branch_names pre post mold nm u a ai
              (hdec ▸ hnames) hother
          simp only [applyCatalogOp, async_add_or_update_medication, hu,
            Bool.not_true, Bool.false_eq_true, if_false, hti, if_true,
            Option.getD_some, hupd]
          exact ⟨hnames2, hids2 ▸ hids, hids2 ▸ hne⟩
    · have hu' : is_medication_name_unique meds nm i = false :=
        Bool.not_eq_true _ ▸ eq_false_of_ne_true hu
      simp only [applyCatalogOp, async_add_or_update_medication, hu',
        Bool.not_false, if_true]
      exact ⟨hnames, hids, hne⟩
  | createFromName f nm =>
    simp only [catalogOpFreshOk, Bool.and_eq_true, Bool.not_eq_true'] at hfresh
    have hf1 : f ∉ meds.map fun m => m.id := by
      simpa using hfresh.1
    have hf2 : f ≠ "" := by
      simpa using hfresh.2
    cases hfind : meds.find? (fun m => m.name == nm) with
    | some m =>
      simp only [applyCatalogOp, async_create_medication_from_name, hfind]
      exact ⟨hnames, hids, hne⟩
    | none =>
      have hnm : ∀ m ∈ meds, m.name ≠ nm := find?_name_none meds nm hfind
      have hu : is_medication_name_unique meds nm none = true :=
        (name_unique_iff meds nm none).mpr
          fun m hm hna => absurd hna (hnm m hm)
      simp only [applyCatalogOp, async_create_medication_from_name, hfind,
        async_add_or_update_medication, hu, Bool.not_true,
        Bool.false_eq_true, if_false, pyTruthyStrOpt]
      exact create_branch_invariants meds f nm none false none hnames hids hne
        hf1 hf2 hnm
  | deleteMed i p =>
    have hsubn : ((meds.filter fun m => m.id ≠ i).map fun m => m.name).Sublist
        (meds.map fun m => m.name) :=
      (List.filter_sublist meds).map _
    have hsubi : ((meds.filter fun m => m.id ≠ i).map fun m => m.id).Sublist
        (meds.map fun m => m.id) :=
      (List.filter_sublist meds).map _
    have hinv : (((meds.filter fun m => m.id ≠ i).map fun m => m.name).Nodup) ∧
        (((meds.filter fun m => m.id ≠ i).map fun m => m.id).Nodup) ∧
        "" ∉ (meds.filter fun m => m.id ≠ i).map fun m => m.id :=
      ⟨hnames.sublist hsubn, hids.sublist hsubi,
        fun hmem => hne (hsubi.subset hmem)⟩
    by_cases hp : p i = true
    · simp only [applyCatalogOp, async_delete_medication, hp, if_true]
      exact ⟨hnames, hids, hne⟩
    · have hp' : p i = false := eq_false_of_ne_true hp
      by_cases hc : (((meds.filter fun m => m.id ≠ i).length ==
          meds.length) = true)
      · simp only [applyCatalogOp, async_delete_medication, hp',
          Bool.false_eq_true, if_false, hc, if_true]
        exact hinv
      · have hc' : ((meds.filter fun m => m.id ≠ i).length ==
            meds.length) = false := eq_false_of_ne_true hc
        simp only [applyCatalogOp, async_delete_medication, hp',
          Bool.false_eq_true, if_false, hc', if_true]
        exact hinv

/-- Witness for the amended C3: a create on the empty catalog keeps all
three invariants. -/
theorem catalogOp_preserves_uniqueness_witness :
    ((([] : List Medication).map fun m => m.name).Nodup) ∧
    catalogOpFreshOk []
      (CatalogOp.addOrUpdate "f" none "Aspirin" none false none) = true ∧
    (((applyCatalogOp []
        (CatalogOp.addOrUpdate "f" none "Aspirin" none false none)).map
      fun m => m.name).Nodup ∧
    ((applyCatalogOp []
        (CatalogOp.addOrUpdate "f" none "Aspirin" none false none)).map
      fun m => m.id).Nodup ∧
    "" ∉ (applyCatalogOp []
        (CatalogOp.addOrUpdate "f" none "Aspirin" none false none)).map
      fun m => m.id) :=
  ⟨by decide, by decide,
    catalogOp_preserves_uniqueness []
      (CatalogOp.addOrUpdate "f" none "Aspirin" none false none)
      (by decide) (by decide) (by decide) (by decide)⟩

/-- C6: deleting a catalog entry whose id the coordinator reports as in
use (referenced by at least one record of some person storage) fails
with the "in use" `ValueError` before any mutation: the catalog list is
returned unchanged and no save happens. -/
theorem deleteMedication_in_use_blocked (meds : List Medication)
    (storages : List MedilogStorageState) (mid : String)
    (h : is_medication_in_use storages mid = true) :
    async_delete_medication meds mid
        (some fun i => is_medication_in_use storages i) =
      ⟨.error (.inUse mid), meds, false⟩ := by
  unfold async_delete_medication
  simp [h]

/-- Witness for C6: a concrete referenced medication id is delete-blocked. -/
theorem deleteMedication_in_use_blocked_witness :
    is_medication_in_use
        [⟨"person.a", [⟨"a", "t", none, some "m1", 1, none, none⟩]⟩]
        "m1" = true ∧
    async_delete_medication [⟨"m1", "Aspirin", none, false, none⟩] "m1"
        (some fun i => is_medication_in_use
          [⟨"person.a", [⟨"a", "t", none, some "m1", 1, none, none⟩]⟩] i) =
      ⟨.error (.inUse "m1"), [⟨"m1", "Aspirin", none, false, none⟩], false⟩ :=
  ⟨by decide,
    deleteMedication_in_use_blocked [⟨"m1", "Aspirin", none, false, none⟩]
      [⟨"person.a", [⟨"a", "t", none, some "m1", 1, none, none⟩]⟩] "m1"
      (by decide)⟩

/-- C10: because the in-use check runs before the existence check, a
dangling id (absent from the catalog yet referenced by some record)
fails with the "in use" error — not "not found" — and the catalog is
unchanged, nothing saved. -/
theorem deleteMedication_dangling_in_use (meds : List Medication)
    (storages : List MedilogStorageState) (mid : String)
    (habsent : mid ∉ meds.map fun m => m.id)
    (href : is_medication_in_use storages mid = true) :
    async_delete_medication meds mid
        (some fun i => is_medication_in_use storages i) =
      ⟨.error (.inUse mid), meds, false⟩ := by
  unfold async_delete_medication
  simp [href]

/-- Witness for C10: a dangling reference on the empty catalog yields
the in-use error. -/
theorem deleteMedication_dangling_in_use_witness :
    ("m9" ∉ ([] : List Medication).map fun m => m.id) ∧
    is_medication_in_use
        [⟨"person.a", [⟨"a", "t", none, some "m9", 1, none, none⟩]⟩]
        "m9" = true ∧
    async_delete_medication [] "m9"
        (some fun i => is_medication_in_use
          [⟨"person.a", [⟨"a", "t", none, some "m9", 1, none, none⟩]⟩] i) =
      ⟨.error (.inUse "m9"), [], false⟩ :=
  ⟨by decide, by decide,
    deleteMedication_dangling_in_use []
      [⟨"person.a", [⟨"a", "t", none, some "m9", 1, none, none⟩]⟩] "m9"
      (by decide) (by decide)⟩

/-! ## Person list (C9), service validation (C7), defensive load (C4) -/

theorem foldl_maxStep_mem : ∀ (rs : List MedRecord) (r : MedRecord),
    rs.foldl maxStep r ∈ r :: rs
  | [], r => List.mem_cons_self r []
  | x :: rs, r => by
    have hmem := foldl_maxStep_mem rs (maxStep r x)
    rw [List.foldl_cons]
    rcases List.mem_cons.mp hmem with h1 | h2
    · rw [h1]
      unfold maxStep
      by_cases hc : r.datetime < x.datetime
      · simp [hc]
      · simp [hc]
    · exact List.mem_cons_of_mem _ (List.mem_cons_of_mem _ h2)

theorem foldl_maxStep_ge : ∀ (rs : List MedRecord) (r : MedRecord),
    r.datetime ≤ (rs.foldl maxStep r).datetime ∧
    ∀ x ∈ rs, x.datetime ≤ (rs.foldl maxStep r).datetime
  | [], r => ⟨le_refl _, by simp⟩
  | x :: rs, r => by
    have ih := foldl_maxStep_ge rs (maxStep r x)
    rw [List.foldl_cons]
    constructor
    · refine le_trans ?_ ih.1
      unfold maxStep
      by_cases hc : r.datetime < x.datetime
      · simp only [hc, if_true]
        exact le_of_lt hc
      · simp [hc]
    · intro y hy
      rcases List.mem_cons.mp hy with h1 | h2
      · rw [h1]
        refine le_trans ?_ ih.1
        unfold maxStep
        by_cases hc : r.datetime < x.datetime
        · simp [hc]
        · simp only [hc, if_false]
          exact le_of_not_lt hc
      · exact ih.2 y h2

/-- C9: `get_person_list` returns exactly one element per tracked
entity, carrying that entity identifier; the recent record is null
exactly when the entity has no records, and otherwise is a member of the
record list whose `datetime` is maximal in the ordering on the datetime
strings (the first maximal one on ties).  The model is a total function:
the call never raises on such states (every stored record carries a
string `datetime`, so Python `max` only ever compares strings). -/
theorem getPersonList_spec (storages : List (String × MedilogStorageState)) :
    (get_person_list storages).length = storages.length ∧
    List.Forall₂ (fun p e =>
      e.entity = p.1 ∧
      (p.2.records = [] → e.recent_record = none) ∧
      (p.2.records ≠ [] → ∃ r0, e.recent_record = some r0 ∧
        r0 ∈ p.2.records ∧ ∀ r ∈ p.2.records, r.datetime ≤ r0.datetime))
      storages (get_person_list storages) := by
  constructor
  · simp [get_person_list]
  · unfold get_person_list
    rw [List.forall₂_map_right_iff, List.forall₂_same]
    intro p hp
    refine ⟨rfl, ?_, ?_⟩
    · intro h
      simp [pythonMaxRecord, h]
    · intro h
      obtain ⟨r, rs, hrr⟩ := List.exists_cons_of_ne_nil h
      rw [hrr]
      refine ⟨rs.foldl maxStep r, rfl, foldl_maxStep_mem rs r, ?_⟩
      intro x hx
      rcases List.mem_cons.mp hx with h1 | h2
      · exact h1 ▸ (foldl_maxStep_ge rs r).1
      · exact (foldl_maxStep_ge rs r).2 x h2

/-- Concrete storages for the C9 witness. -/
def c9storages : List (String × MedilogStorageState) :=
  [("person.a", ⟨"person.a",
      [⟨"a", "2024-01-01", none, none, 1, none, none⟩,
       ⟨"b", "2024-03-01", none, none, 1, none, none⟩,
       ⟨"c", "2024-02-01", none, none, 1, none, none⟩]⟩),
   ("person.b", ⟨"person.b", []⟩)]

/-- Witness for C9 at a concrete two-person state. -/
theorem getPersonList_spec_witness :
    (get_person_list c9storages).length = c9storages.length ∧
    List.Forall₂ (fun p e =>
      e.entity = p.1 ∧
      (p.2.records = [] → e.recent_record = none) ∧
      (p.2.records ≠ [] → ∃ r0, e.recent_record = some r0 ∧
        r0 ∈ p.2.records ∧ ∀ r ∈ p.2.records, r.datetime ≤ r0.datetime))
      c9storages (get_person_list c9storages) :=
  getPersonList_spec c9storages

/-- Concrete coordinator state for refuting C7 as stated. -/
def c7coord : CoordinatorState :=
  ⟨some [], [("person.a", ⟨"person.a", []⟩)]⟩

/-- C7 is false as stated: a request whose `medication_id` is the empty
string — non-null, and certainly not the id of any catalog entry — is
not rejected: `if medication_id:` skips the validation for falsy values,
so the record is stored and persisted. -/
theorem service_empty_medication_id_not_rejected :
    ("" ∉ ([] : List Medication).map fun m => m.id) ∧
    (handle_add_or_update c7coord "f1" "person.a" none "2024-01-01" none
        (some "") 1 none).saved = true ∧
    (handle_add_or_update c7coord "f1" "person.a" none "2024-01-01" none
        (some "") 1 none).coord ≠ c7coord := by decide

/-- C7 (amended): a request whose `medication_id` is a non-empty string
that is not the id of any catalog entry is rejected before any store
mutation: the coordinator state (all record stores and the catalog) is
exactly as before and nothing is saved. -/
theorem serviceAddOrUpdate_rejects_unknown_medication (c : CoordinatorState)
    (freshId person_id : String) (record_id : Option String)
    (record_datetime : String) (temperature : Option Int) (m : String)
    (medication_amount : Int) (note : Option String)
    (meds : List Medication)
    (hcat : c.medication_storage = some meds)
    (hm : m ≠ "")
    (hnot : m ∉ meds.map fun x => x.id) :
    handle_add_or_update c freshId person_id record_id record_datetime
        temperature (some m) medication_amount note = ⟨c, false⟩ := by
  have ht : pyTruthyStrOpt (some m) = true := by
    simp [pyTruthyStrOpt, pyTruthyStr, hm]
  have hfind : meds.find? (fun x => x.id == m) = none := by
    apply List.find?_eq_none.mpr
    intro x hx hc
    exact hnot (beq_iff_eq.mp hc ▸ List.mem_map_of_mem _ hx)
  have hex : medication_exists meds m = false := by
    unfold medication_exists get_medication
    rw [hfind]
    rfl
  unfold handle_add_or_update
  rw [ht, hcat]
  simp only [Option.getD_some, hex, Bool.false_eq_true, if_false, if_true]

/-- Witness for the amended C7: a concrete unknown (non-empty)
medication id is rejected without any mutation. -/
theorem serviceAddOrUpdate_rejects_unknown_medication_witness :
    c7coord.medication_storage = some [] ∧ ("mX" ≠ "") ∧
    ("mX" ∉ ([] : List Medication).map fun x => x.id) ∧
    handle_add_or_update c7coord "f1" "person.a" none "2024-01-01" none
        (some "mX") 1 none = ⟨c7coord, false⟩ :=
  ⟨rfl, by decide, by decide,
    serviceAddOrUpdate_rejects_unknown_medication c7coord "f1" "person.a"
      none "2024-01-01" none "mX" 1 none [] rfl (by decide) (by decide)⟩

/-- C4 (code bug): on a freshly constructed store, `async_load` does
reset to the empty document for an unparsable file, but raises
`AttributeError` to the caller when the file holds valid JSON that is
not an object (here the JSON array `[]`), because
`loaded_data.get("entity")` is called without the `isinstance(...,
dict)` guard that the sibling `MedicationStorage.async_load` has. -/
theorem load_raises_on_non_object_json :
    rawAsyncLoad (initRawStorage "person.alice") .unparsable =
      .ok (initRawStorage "person.alice") ∧
    rawAsyncLoad (initRawStorage "person.alice") (.parsed (.pyList [])) =
      .error .attributeError :=
  ⟨rfl, rfl⟩

/-! ## Migration lemmas and claims C1, C2 -/

theorem create_from_name_eq (meds : List Medication) (freshId name : String) :
    async_create_medication_from_name meds freshId name =
      match meds.find? (fun m => m.name == name) with
      | some m => ⟨.ok m.id, meds, false⟩
      | none => ⟨.ok freshId,
          meds ++ [(⟨freshId, name, none, false, none⟩ : Medication)], true⟩ := by
  unfold async_create_medication_from_name
  cases hfind : meds.find? (fun m => m.name == name) with
  | some m => rfl
  | none =>
    have hnm : ∀ m ∈ meds, m.name ≠ name := find?_name_none meds name hfind
    have hu : is_medication_name_unique meds name none = true :=
      (name_unique_iff meds name none).mpr
        fun m hm hna => absurd hna (hnm m hm)
    simp only [async_add_or_update_medication, hu, Bool.not_true,
      Bool.false_eq_true, if_false, pyTruthyStrOpt]

theorem buildMedMap_eq (names : List String) :
    ∀ (meds : List Medication) (n : Nat),
      buildMedMap meds n names = .ok (buildMedMapT meds n names) := by
  induction names with
  | nil => intro meds n; rfl
  | cons name rest ih =>
    intro meds n
    simp only [buildMedMap, buildMedMapT, create_from_name_eq]
    cases hfind : meds.find? (fun m => m.name == name) with
    | some m =>
      simp only [ih meds (n + 1)]
      simp
    | none =>
      simp only [ih (meds ++ [(⟨genId n, name, none, false, none⟩ :
        Medication)]) (n + 1)]
      simp

theorem buildMedMapT_meds_ext (names : List String) :
    ∀ (meds : List Medication) (n : Nat),
      ∃ tail, (buildMedMapT meds n names).meds = meds ++ tail := by
  induction names with
  | nil =>
    intro meds n
    exact ⟨[], by simp [buildMedMapT]⟩
  | cons name rest ih =>
    intro meds n
    simp only [buildMedMapT]
    cases hfind : meds.find? (fun m => m.name == name) with
    | some m =>
      simpa using ih meds (n + 1)
    | none =>
      obtain ⟨tail, htail⟩ :=
        ih (meds ++ [(⟨genId n, name, none, false, none⟩ : Medication)]) (n + 1)
      exact ⟨(⟨genId n, name, none, false, none⟩ : Medication) :: tail, by
        simp only [htail, List.append_assoc]
        rfl⟩

theorem buildMedMapT_names_nodup (names : List String) :
    ∀ (meds : List Medication) (n : Nat),
      (meds.map fun m => m.name).Nodup →
      ((buildMedMapT meds n names).meds.map fun m => m.name).Nodup := by
  induction names with
  | nil =>
    intro meds n h
    simpa [buildMedMapT] using h
  | cons name rest ih =>
    intro meds n h
    simp only [buildMedMapT]
    cases hfind : meds.find? (fun m => m.name == name) with
    | some m => simpa using ih meds (n + 1) h
    | none =>
      apply ih
      rw [List.map_append, List.nodup_append]
      refine ⟨h, by simp, ?_⟩
      intro x hx
      simp only [List.map_cons, List.map_nil, List.mem_singleton]
      obtain ⟨m, hm, rfl⟩ := List.mem_map.mp hx
      simpa using find?_name_none meds name hfind m hm

theorem buildMedMapT_map_fst (names : List String) :
    ∀ (meds : List Medication) (n : Nat),
      (buildMedMapT meds n names).medMap.map (fun p => p.1) = names := by
  induction names with
  | nil => intro meds n; rfl
  | cons name rest ih =>
    intro meds n
    simp only [buildMedMapT]
    cases hfind : meds.find? (fun m => m.name == name) with
    | some m => simp [ih meds (n + 1)]
    | none =>
      simp [ih (meds ++ [(⟨genId n, name, none, false, none⟩ :
        Medication)]) (n + 1)]

theorem buildMedMapT_realized (names : List String) :
    ∀ (meds : List Medication) (n : Nat),
      ∀ p ∈ (buildMedMapT meds n names).medMap,
        ∃ m ∈ (buildMedMapT meds n names).meds, m.id = p.2 ∧ m.name = p.1 := by
  induction names with
  | nil =>
    intro meds n p hp
    simp [buildMedMapT] at hp
  | cons name rest ih =>
    intro meds n p hp
    simp only [buildMedMapT] at hp ⊢
    cases hfind : meds.find? (fun m => m.name == name) with
    | some m =>
      rw [hfind] at hp
      simp only [List.mem_cons] at hp
      rcases hp with h1 | h2
      · obtain ⟨tail, htail⟩ := buildMedMapT_meds_ext rest meds (n + 1)
        refine ⟨m, ?_, ?_, ?_⟩
        · simp only [htail]
          exact List.mem_append.mpr (Or.inl (List.mem_of_find?_eq_some hfind))
        · rw [h1]
        · rw [h1]
          simpa using List.find?_some hfind
      · exact ih meds (n + 1) p h2
    | none =>
      rw [hfind] at hp
      simp only [List.mem_cons] at hp
      rcases hp with h1 | h2
      · obtain ⟨tail, htail⟩ := buildMedMapT_meds_ext rest
          (meds ++ [(⟨genId n, name, none, false, none⟩ : Medication)]) (n + 1)
        refine ⟨⟨genId n, name, none, false, none⟩, ?_, by rw [h1], by rw [h1]⟩
        simp only [htail]
        exact List.mem_append.mpr (Or.inl (List.mem_append.mpr (Or.inr
          (List.mem_singleton.mpr rfl))))
      · exact ih (meds ++ [(⟨genId n, name, none, false, none⟩ :
          Medication)]) (n + 1) p h2

theorem lookup_isSome_of_mem_fst (nm : String) :
    ∀ mp : List (String × String),
      nm ∈ mp.map (fun p => p.1) → (List.lookup nm mp).isSome = true := by
  intro mp
  induction mp with
  | nil => simp
  | cons p mp ih =>
    obtain ⟨k, v⟩ := p
    intro h
    by_cases he : nm = k
    · simp [List.lookup, he]
    · have h2 : nm ∈ mp.map fun q => q.1 := by
        simp only [List.map_cons] at h
        rcases List.mem_cons.mp h with h1 | h1
        · exact absurd h1 he
        · exact h1
      have hb : (nm == k) = false := beq_eq_false_iff_ne.mpr he
      simp [List.lookup, hb, ih h2]

theorem lookup_mem (nm v : String) :
    ∀ mp : List (String × String),
      List.lookup nm mp = some v → (nm, v) ∈ mp := by
  intro mp
  induction mp with
  | nil => simp [List.lookup]
  | cons p mp ih =>
    obtain ⟨k, b⟩ := p
    intro h
    by_cases he : nm = k
    · have hb : (nm == k) = true := beq_iff_eq.mpr he
      rw [List.lookup, hb] at h
      have hbv : b = v := Option.some.inj h
      exact List.mem_cons.mpr (Or.inl (by rw [he, hbv]))
    · have hb : (nm == k) = false := beq_eq_false_iff_ne.mpr he
      rw [List.lookup, hb] at h
      exact List.mem_cons.mpr (Or.inr (ih h))

theorem mem_addLegacyName (acc : List String) (r : MedRecord) (x : String)
    (h : x ∈ acc) : x ∈ addLegacyName acc r := by
  unfold addLegacyName
  cases r.medication with
  | none => exact h
  | some nm =>
    cases hcond : pyTruthyStr nm && !(acc.contains nm) with
    | false =>
      simp only [hcond, Bool.false_eq_true, if_false]
      exact h
    | true =>
      simp only [hcond, if_true]
      exact List.mem_append.mpr (Or.inl h)

theorem addLegacyName_adds (acc : List String) (r : MedRecord) (nm : String)
    (hr : r.medication = some nm) (hnm : nm ≠ "") :
    nm ∈ addLegacyName acc r := by
  unfold addLegacyName
  rw [hr]
  by_cases hc : acc.contains nm
  · have hcond : (pyTruthyStr nm && !(acc.contains nm)) = false := by
      rw [hc]
      simp
    simp only [hcond, Bool.false_eq_true, if_false]
    simpa using hc
  · have hc' : acc.contains nm = false := eq_false_of_ne_true hc
    have hcond : (pyTruthyStr nm && !(acc.contains nm)) = true := by
      rw [hc']
      simp [pyTruthyStr, hnm]
    simp only [hcond, if_true]
    exact List.mem_append.mpr (Or.inr (List.mem_singleton.mpr rfl))

theorem mem_foldl_addLegacyName_of_mem (records : List MedRecord) :
    ∀ (acc : List String) (x : String), x ∈ acc →
      x ∈ records.foldl addLegacyName acc := by
  induction records with
  | nil => intro acc x h; exact h
  | cons r rs ih =>
    intro acc x h
    rw [List.foldl_cons]
    exact ih _ x (mem_addLegacyName acc r x h)

theorem legacy_mem_foldl (records : List MedRecord) :
    ∀ (acc : List String) (r : MedRecord) (nm : String), r ∈ records →
      r.medication = some nm → nm ≠ "" →
      nm ∈ records.foldl addLegacyName acc := by
  induction records with
  | nil => intro acc r nm h; simp at h
  | cons r0 rs ih =>
    intro acc r nm hmem hmed hne
    rw [List.foldl_cons]
    rcases List.mem_cons.mp hmem with h1 | h2
    · exact mem_foldl_addLegacyName_of_mem rs _ nm
        (addLegacyName_adds acc r0 nm (h1 ▸ hmed) hne)
    · exact ih _ r nm h2 hmed hne

theorem mem_storages_foldl_of_mem (storages : List MedilogStorageState) :
    ∀ (acc : List String) (x : String), x ∈ acc →
      x ∈ storages.foldl (fun acc s => s.records.foldl addLegacyName acc) acc := by
  induction storages with
  | nil => intro acc x h; exact h
  | cons s ss ih =>
    intro acc x h
    rw [List.foldl_cons]
    exact ih _ x (mem_foldl_addLegacyName_of_mem s.records acc x h)

theorem mem_collect_aux (storages : List MedilogStorageState) :
    ∀ (acc : List String) (s : MedilogStorageState) (r : MedRecord)
      (nm : String), s ∈ storages → r ∈ s.records → r.medication = some nm →
      nm ≠ "" →
      nm ∈ storages.foldl (fun acc s => s.records.foldl addLegacyName acc) acc := by
  induction storages with
  | nil => intro acc s r nm h; simp at h
  | cons s0 ss ih =>
    intro acc s r nm hs hr hmed hne
    rw [List.foldl_cons]
    rcases List.mem_cons.mp hs with h1 | h2
    · exact mem_storages_foldl_of_mem ss _ nm
        (legacy_mem_foldl s0.records acc r nm (h1 ▸ hr) hmed hne)
    · exact ih _ s r nm h2 hr hmed hne

theorem mem_collectLegacyNames (storages : List MedilogStorageState)
    (s : MedilogStorageState) (r : MedRecord) (nm : String)
    (hs : s ∈ storages) (hr : r ∈ s.records) (hmed : r.medication = some nm)
    (hne : nm ≠ "") : nm ∈ collectLegacyNames storages :=
  mem_collect_aux storages [] s r nm hs hr hmed hne

theorem medilogMigrate_marker (w : MigrationWorld)
    (h : w.markerPresent = true) : medilogMigrate w = ⟨w, []⟩ := by
  unfold medilogMigrate
  rw [if_pos h]

theorem medilogMigrate_marker_or_id (w : MigrationWorld) :
    (medilogMigrate w).world.markerPresent = true ∨
    (medilogMigrate w).world = w := by
  by_cases hm : w.markerPresent = true
  · exact Or.inr (by rw [medilogMigrate_marker w hm])
  · unfold medilogMigrate
    rw [if_neg hm]
    cases hcat : w.medication_storage with
    | none => exact Or.inr rfl
    | some meds =>
      simp only [buildMedMap_eq (collectLegacyNames w.person_storages) meds
        w.nextId]
      exact Or.inl trivial

/-- C2: the migration routine is idempotent — running it twice from any
initial state (marker, catalog store, person storages) ends in the same
final state as running it once — and when the marker file is already
present the routine returns immediately, changing nothing and performing
no durable writes at all. -/
theorem migration_idempotent (w : MigrationWorld) :
    (medilogMigrate (medilogMigrate w).world).world = (medilogMigrate w).world ∧
    (w.markerPresent = true → medilogMigrate w = ⟨w, []⟩) := by
  constructor
  · rcases medilogMigrate_marker_or_id w with h | h
    · rw [medilogMigrate_marker _ h]
    · rw [h]
      exact h
  · intro h
    exact medilogMigrate_marker w h

/-- Witness for C2 at a concrete marker-present world. -/
theorem migration_idempotent_witness :
    medilogMigrate ⟨true, some [], [], 0⟩ = ⟨⟨true, some [], [], 0⟩, []⟩ :=
  (migration_idempotent ⟨true, some [], [], 0⟩).2 rfl

/-- C1: running the migration with no pre-existing marker (and an
initialized catalog whose names are distinct) removes the legacy
`medication` field from every record of every store and leaves records
without the field untouched; one single name-to-id assignment governs
the whole migration: each record whose legacy value was the non-empty
string `nm` gets `medication_id := some (assign nm)` — so two records
that held the same legacy name (in the same or different stores) end up
with equal `medication_id` — while an empty legacy value becomes a null
`medication_id`; each legacy name is realized by an entry of the final
catalog with exactly that name and the assigned id, and the final
catalog names stay distinct (exactly one entry per distinct non-empty
legacy name). -/
theorem migration_correct (w : MigrationWorld) (meds : List Medication)
    (hmark : w.markerPresent = false)
    (hcat : w.medication_storage = some meds)
    (hnames : (meds.map fun m => m.name).Nodup) :
    ∃ (meds' : List Medication) (assign : String → String),
      (medilogMigrate w).world.medication_storage = some meds' ∧
      ((meds'.map fun m => m.name).Nodup) ∧
      (∀ nm, hasLegacyName w.person_storages nm = true →
        ∃ m ∈ meds', m.id = assign nm ∧ m.name = nm) ∧
      List.Forall₂ (fun s s' =>
        s'.entity = s.entity ∧
        List.Forall₂ (fun r r' =>
          r'.medication = none ∧
          (r.medication = none → r' = r) ∧
          (∀ nm, r.medication = some nm →
            r' = { r with
              medication := none
              medication_id := if nm = "" then none else some (assign nm) }))
          s.records s'.records)
        w.person_storages (medilogMigrate w).world.person_storages := by
  have hok := buildMedMap_eq (collectLegacyNames w.person_storages) meds
    w.nextId
  have hworld : (medilogMigrate w).world =
      ⟨true,
        some (buildMedMapT meds w.nextId
          (collectLegacyNames w.person_storages)).meds,
        (w.person_storages.map (migrateStorage (buildMedMapT meds w.nextId
          (collectLegacyNames w.person_storages)).medMap)).map (fun p => p.1),
        (buildMedMapT meds w.nextId
          (collectLegacyNames w.person_storages)).nextId⟩ := by
    unfold medilogMigrate
    rw [hmark]
    simp only [Bool.false_eq_true, if_false, hcat, hok]
  refine ⟨(buildMedMapT meds w.nextId
      (collectLegacyNames w.person_storages)).meds,
    fun nm => (List.lookup nm (buildMedMapT meds w.nextId
      (collectLegacyNames w.person_storages)).medMap).getD "",
    ?_, ?_, ?_, ?_⟩
  · rw [hworld]
  · exact buildMedMapT_names_nodup (collectLegacyNames w.person_storages)
      meds w.nextId hnames
  · intro nm hleg
    unfold hasLegacyName at hleg
    rw [Bool.and_eq_true] at hleg
    have hne : nm ≠ "" := by
      simpa [pyTruthyStr] using hleg.1
    obtain ⟨s, hs, hrec⟩ := List.any_eq_true.mp hleg.2
    obtain ⟨r, hr, hmedb⟩ := List.any_eq_true.mp hrec
    have hmed : r.medication = some nm := beq_iff_eq.mp hmedb
    have hmm : nm ∈ collectLegacyNames w.person_storages :=
      mem_collectLegacyNames w.person_storages s r nm hs hr hmed hne
    have hmm2 : nm ∈ (buildMedMapT meds w.nextId
        (collectLegacyNames w.person_storages)).medMap.map fun p => p.1 := by
      rw [buildMedMapT_map_fst]
      exact hmm
    have hsome := lookup_isSome_of_mem_fst nm _ hmm2
    obtain ⟨v, hv⟩ := Option.isSome_iff_exists.mp hsome
    obtain ⟨m, hm, hid, hname⟩ := buildMedMapT_realized
      (collectLegacyNames w.person_storages) meds w.nextId (nm, v)
      (lookup_mem nm v _ hv)
    refine ⟨m, hm, ?_, hname⟩
    show m.id = (List.lookup nm (buildMedMapT meds w.nextId
      (collectLegacyNames w.person_storages)).medMap).getD ""
    rw [hv]
    exact hid
  · rw [hworld]
    show List.Forall₂ _ w.person_storages
      ((w.person_storages.map (migrateStorage (buildMedMapT meds w.nextId
        (collectLegacyNames w.person_storages)).medMap)).map fun p => p.1)
    rw [List.map_map, List.forall₂_map_right_iff, List.forall₂_same]
    intro s hs
    refine ⟨rfl, ?_⟩
    show List.Forall₂ _ s.records
      (s.records.map (migrateRecord (buildMedMapT meds w.nextId
        (collectLegacyNames w.person_storages)).medMap))
    rw [List.forall₂_map_right_iff, List.forall₂_same]
    intro r hr
    refine ⟨?_, ?_, ?_⟩
    · unfold migrateRecord
      cases hmed : r.medication with
      | none => exact hmed
      | some old => rfl
    · intro hmed
      unfold migrateRecord
      rw [hmed]
    · intro nm hmed
      unfold migrateRecord
      rw [hmed]
      by_cases hne : nm = ""
      · subst hne
        simp [pyTruthyStr]
      · have h1 : pyTruthyStr nm = true := by
          simp [pyTruthyStr, hne]
        have hmm : nm ∈ collectLegacyNames w.person_storages :=
          mem_collectLegacyNames w.person_storages s r nm hs hr hmed hne
        have hmm2 : nm ∈ (buildMedMapT meds w.nextId
            (collectLegacyNames w.person_storages)).medMap.map
            fun p => p.1 := by
          rw [buildMedMapT_map_fst]
          exact hmm
        obtain ⟨v, hv⟩ := Option.isSome_iff_exists.mp
          (lookup_isSome_of_mem_fst nm _ hmm2)
        simp [h1, hv, hne]

/-- Concrete two-store legacy world for the C1 witness (the "Aspirin"
scenario of the spec). -/
def c1world : MigrationWorld :=
  ⟨false, some [],
    [⟨"person.a", [⟨"a", "t1", none, none, 1, none, some "Aspirin"⟩]⟩,
     ⟨"person.b", [⟨"b", "t2", none, none, 1, none, some "Aspirin"⟩]⟩], 0⟩

/-- Witness for C1: the migration on `c1world` satisfies the full
specification conclusion. -/
theorem migration_correct_witness :
    c1world.markerPresent = false ∧
    c1world.medication_storage = some [] ∧
    ((([] : List Medication).map fun m => m.name).Nodup) ∧
    ∃ (meds' : List Medication) (assign : String → String),
      (medilogMigrate c1world).world.medication_storage = some meds' ∧
      ((meds'.map fun m => m.name).Nodup) ∧
      (∀ nm, hasLegacyName c1world.person_storages nm = true →
        ∃ m ∈ meds', m.id = assign nm ∧ m.name = nm) ∧
      List.Forall₂ (fun s s' =>
        s'.entity = s.entity ∧
        List.Forall₂ (fun r r' =>
          r'.medication = none ∧
          (r.medication = none → r' = r) ∧
          (∀ nm, r.medication = some nm →
            r' = { r with
              medication := none
              medication_id := if nm = "" then none else some (assign nm) }))
          s.records s'.records)
        c1world.person_storages (medilogMigrate c1world).world.person_storages :=
  ⟨rfl, rfl, List.nodup_nil,
    migration_correct c1world [] rfl rfl List.nodup_nil⟩
